import Mathlib

/-!
Verification development for the `sync-gitlab-repo-submodule-action` repository.

The development shallowly embeds the branch-reconciliation and merge-request
lifecycle engine of the repository:

* `src/lib/upsert-branch.ts` and its duplicate inside `src/lib/temp-dir.ts`
  (the `upsertBranch` pipeline: clone, checkout, provenance validation,
  hard reset, submodule pinning, commit, force push, and the `TempDir`
  ephemeral-workspace guard);
* `src/commands/merge-mr.ts` (`mergeMr`: merge-request validation and merge
  outcome classification);
* `src/commands/sync-branch.ts` (`syncBranch`: the merge-request
  create-or-edit phase that runs after `upsertBranch`);
* `src/lib/parse-boolean-env-var.ts`.

External I/O (GitLab REST calls, git subprocesses, the filesystem) is modelled
by an environment record holding the outcome of every external call the code
makes, in program order.  Every embedded operation returns a `Run` value: the
`Except` result of the TypeScript function together with the ordered trace of
external calls it performed, so that ordering and frame properties
(such as: no reset and no push happen after a drift error) are provable.
-/

namespace GitlabSync

/-- Outcome-plus-trace of one embedded TypeScript function: `result` is the
value returned or the error thrown, `trace` is the ordered list of external
calls (of type `τ`) that were performed before returning or throwing. -/
structure Run (ε τ α : Type) where
  result : Except ε α
  trace : List τ

/-- Sequencing of two embedded computations: a thrown error propagates and
keeps the trace accumulated so far; on success the traces are appended. -/
def Run.bind {ε τ α β : Type} (x : Run ε τ α) (f : α → Run ε τ β) : Run ε τ β :=
  match x.result with
  | Except.error e => ⟨Except.error e, x.trace⟩
  | Except.ok a => ⟨(f a).result, x.trace ++ (f a).trace⟩

/-- Embedding of a pure expression: no external call, no error. -/
def Run.pure {ε τ α : Type} (a : α) : Run ε τ α := ⟨Except.ok a, []⟩

instance {ε τ : Type} : Monad (Run ε τ) where
  pure := Run.pure
  bind := Run.bind

theorem Run.bind_eq {ε τ α β : Type} (x : Run ε τ α) (f : α → Run ε τ β) :
    x >>= f = Run.bind x f := rfl

theorem Run.bind_ok {ε τ α β : Type} (x : Run ε τ α) (f : α → Run ε τ β)
    (a : α) (h : x.result = Except.ok a) :
    x >>= f = ⟨(f a).result, x.trace ++ (f a).trace⟩ := by
  rw [Run.bind_eq, Run.bind, h]

theorem Run.bind_error {ε τ α β : Type} (x : Run ε τ α) (f : α → Run ε τ β)
    (e : ε) (h : x.result = Except.error e) :
    x >>= f = ⟨Except.error e, x.trace⟩ := by
  rw [Run.bind_eq, Run.bind, h]

/-- An external call that succeeds, returning the value recorded in the
environment, and leaving the call in the trace. -/
def Run.callOk {ε τ α : Type} (t : τ) (a : α) : Run ε τ α := ⟨Except.ok a, [t]⟩

/-- An external call that fails: the surrounding `catch` rethrows `e`. -/
def Run.callFail {ε τ α : Type} (t : τ) (e : ε) : Run ε τ α := ⟨Except.error e, [t]⟩

/-- An external call whose success is recorded as a Boolean in the
environment: on success it returns `()`, on failure the code throws `e`. -/
def Run.step {ε τ : Type} (t : τ) (ok : Bool) (e : ε) : Run ε τ Unit :=
  ⟨if ok then Except.ok () else Except.error e, [t]⟩

/-- A `throw new Error(...)` with no external call involved. -/
def Run.throwErr {ε τ α : Type} (e : ε) : Run ε τ α := ⟨Except.error e, []⟩

/-! ## Source branch naming

`getMRSourceBranchName` (src/lib/upsert-branch.ts) and its duplicate
`createMRSourceBranchName` (second half of src/lib/temp-dir.ts) both derive
the GitLab MR source branch from the submodule logical name and the GitHub
branch name. -/

/-- Embeds `getMRSourceBranchName` of src/lib/upsert-branch.ts:
the template literal
`${githubProjectSubmoduleName}/${githubRepositoryBranch}`. -/
def getMRSourceBranchName (githubProjectSubmoduleName githubRepositoryBranch : String) : String :=
  githubProjectSubmoduleName ++ "/" ++ githubRepositoryBranch

/-- Embeds `createMRSourceBranchName` (duplicate of `getMRSourceBranchName`
found in the second half of src/lib/temp-dir.ts), byte-for-byte the same
template literal. -/
def createMRSourceBranchName (githubProjectSubmoduleName githubRepositoryBranch : String) : String :=
  githubProjectSubmoduleName ++ "/" ++ githubRepositoryBranch

theorem string_append_data (s t : String) : (s ++ t).data = s.data ++ t.data := by
  cases s; cases t; rfl

theorem string_data_inj {s t : String} (h : s.data = t.data) : s = t := by
  cases s; cases t; exact congrArg String.mk h

/-- CLAIM C9: the derived MR source branch name equals
`<submoduleLogicalName>/<externalBranch>`; the mapping is a pure deterministic
function (equal inputs give equal outputs, and the duplicate
`createMRSourceBranchName` agrees with it); and for a fixed submodule name it
is injective in the external branch name. -/
theorem mrSourceBranchName_spec (name branch : String) :
    getMRSourceBranchName name branch = name ++ "/" ++ branch
    ∧ createMRSourceBranchName name branch = getMRSourceBranchName name branch
    ∧ (∀ name₂ branch₂, name = name₂ → branch = branch₂ →
        getMRSourceBranchName name branch = getMRSourceBranchName name₂ branch₂)
    ∧ (∀ branch₂, getMRSourceBranchName name branch = getMRSourceBranchName name branch₂ →
        branch = branch₂) := by
  refine ⟨rfl, rfl, ?_, ?_⟩
  · intro name₂ branch₂ h1 h2
    rw [h1, h2]
  · intro branch₂ h
    unfold getMRSourceBranchName at h
    have hd : (name ++ "/" ++ branch).data = (name ++ "/" ++ branch₂).data :=
      congrArg String.data h
    rw [string_append_data, string_append_data] at hd
    exact string_data_inj (List.append_cancel_left hd)

/-- Witness for C9: the specification instantiated at the submodule name
`my-sdk` and the external branch `feature/x`. -/
theorem mrSourceBranchName_spec_witness :
    getMRSourceBranchName "my-sdk" "feature/x" = "my-sdk" ++ "/" ++ "feature/x"
    ∧ createMRSourceBranchName "my-sdk" "feature/x" = getMRSourceBranchName "my-sdk" "feature/x"
    ∧ (∀ name₂ branch₂, "my-sdk" = name₂ → "feature/x" = branch₂ →
        getMRSourceBranchName "my-sdk" "feature/x" = getMRSourceBranchName name₂ branch₂)
    ∧ (∀ branch₂,
        getMRSourceBranchName "my-sdk" "feature/x" = getMRSourceBranchName "my-sdk" branch₂ →
        "feature/x" = branch₂) :=
  mrSourceBranchName_spec "my-sdk" "feature/x"

/-- CLAIM C10: the source-branch-name mapping is not injective over the two
inputs taken jointly: the distinct pairs `("a", "b/c")` and `("a/b", "c")`
collide on the name `"a/b/c"`. -/
theorem mrSourceBranchName_joint_collision :
    getMRSourceBranchName "a" "b/c" = getMRSourceBranchName "a/b" "c"
    ∧ getMRSourceBranchName "a" "b/c" = "a/b/c"
    ∧ (("a" : String), ("b/c" : String)) ≠ (("a/b" : String), ("c" : String)) := by
  refine ⟨by decide, by decide, by decide⟩

/-! ## GitLab REST data model (the fields the engine reads) -/

/-- A GitLab merge-request record as consumed by the engine: its `iid`, its
`has_conflicts` flag and its head `sha` (passed back on the merge call). -/
structure MergeRequest where
  iid : Nat
  has_conflicts : Bool
  sha : String
deriving DecidableEq

/-- One entry of `MergeRequests.allDiffs`: old path, new path and the diff
text. -/
structure MRDiff where
  old_path : String
  new_path : String
  diff : String
deriving DecidableEq

/-- The `pipeline` object of a merge result; the engine only reads
`status`. -/
structure MergePipeline where
  status : String
deriving DecidableEq

/-- The result of `MergeRequests.merge`: the MR `state` and the optional
`pipeline` (`result.pipeline?.status` in the source). -/
structure MergeResult where
  state : String
  pipeline : Option MergePipeline
deriving DecidableEq

/-- Character-list prefix test (Boolean). -/
def listIsPrefixOf : List Char → List Char → Bool
  | [], _ => true
  | _ :: _, [] => false
  | c :: cs, d :: ds => c == d && listIsPrefixOf cs ds

/-- Character-list infix test (Boolean): the needle occurs contiguously in
the haystack. -/
def listIsInfixOf (needle : List Char) : List Char → Bool
  | [] => listIsPrefixOf needle []
  | d :: ds => listIsPrefixOf needle (d :: ds) || listIsInfixOf needle ds

/-- JavaScript `String.prototype.includes`: substring containment. -/
def stringIncludes (s pattern : String) : Bool :=
  listIsInfixOf pattern.data s.data

/-- JavaScript `String.prototype.toLowerCase` (ASCII range, which is all the
compared literals need). -/
def jsToLowerCase (s : String) : String :=
  String.mk (s.data.map Char.toLower)

/-- Embeds `parseBooleanEnvVar` of src/lib/parse-boolean-env-var.ts:
`['true', '1'].includes(value?.toLowerCase() ?? '')`. -/
def parseBooleanEnvVar (value : Option String) : Bool :=
  ["true", "1"].contains (match value with
    | some v => jsToLowerCase v
    | none => "")

/-- The GitLab REST calls issued by `mergeMr` and by the MR phase of
`syncBranch`, with the payloads the claims talk about. -/
inductive ApiCall : Type
  | listMRs
  | getDiffs
  | merge (mergeWhenPipelineSucceeds : Bool) (sha : String) (message : String)
  | createMR (removeSourceBranch : Bool) (title description : String)
  | editMR (iid : Nat) (removeSourceBranch : Bool) (title description : String)
deriving DecidableEq

/-- The errors `mergeMr` (src/commands/merge-mr.ts) can throw, one
constructor per `throw new Error(...)` site, in source order. -/
inductive MergeMrError : Type
  | multipleOpenMRs
  | mrNotFound
  | mrHasConflicts
  | mrDiffMissingExpectedSHA
  | mergeNotCompletedPipeline (status : String)
  | mergeNotCompletedUnknown
deriving DecidableEq

/-- What `mergeMr` observably does when it returns without throwing:
either it logged the success confirmation (the `state === 'merged'` early
return) or it fell through the end of the function without confirming. -/
inductive MergeOutcome : Type
  | confirmedMerged
  | pendingNoConfirmation
deriving DecidableEq

/-- The command-line inputs of `mergeMr` that the embedded logic reads. -/
structure MergeArgs where
  gitlabTargetBranch : String
  githubRepositoryBranch : String
  githubRepositorySHA : String
  githubProjectSubmoduleName : String
deriving DecidableEq

/-- Environment for one `mergeMr` run: the responses of the three GitLab
REST calls it makes, in program order, plus the raw
`GITLAB_MERGE_WHEN_PIPELINE_SUCCEEDS` environment variable. -/
structure MergeMrEnv where
  listedMRs : List MergeRequest
  diffs : List MRDiff
  mergeResult : MergeResult
  mergeWhenPipelineSucceedsEnvVar : Option String
deriving DecidableEq

/-- Embeds the `isMRContainsSubmoduleSHA` expression of
src/commands/merge-mr.ts (lines 62-67): some diff has `new_path` and
`old_path` both equal to the literal string `'monite-sdk'` and a diff text
containing `'+Subproject commit <sha>\n'`. -/
def isMRContainsSubmoduleSHA (githubRepositorySHA : String) (diffs : List MRDiff) : Bool :=
  diffs.any fun diff =>
    diff.new_path == "monite-sdk" && diff.old_path == "monite-sdk" &&
      stringIncludes diff.diff ("+Subproject commit " ++ githubRepositorySHA ++ "\n")

/-- The `mergeCommitMessage` template literal of src/commands/merge-mr.ts
(lines 84-88). -/
def mergeCommitMessage (a : MergeArgs) : String :=
  "Merge branch \x27" ++ a.githubRepositoryBranch ++ "\x27 into \x27" ++
    a.gitlabTargetBranch ++ "\x27 with \x27monite-sdk\x27 submodule commit \x27" ++
    a.githubRepositorySHA ++ "\x27\n\n* This MR was merged automatically by the Monite GitHub Action."

/-- Embeds `mergeMr` of src/commands/merge-mr.ts.  The destructuring
`const [mr, ...mrsRest]` followed by the `mrsRest.length` and `!mr` guards
is rendered as the match on the listed MRs; the remaining control flow
follows the source line by line. -/
def mergeMr (a : MergeArgs) (env : MergeMrEnv) : Run MergeMrError ApiCall MergeOutcome := do
  let mrs ← Run.callOk ApiCall.listMRs env.listedMRs
  match mrs with
  | _ :: _ :: _ => Run.throwErr MergeMrError.multipleOpenMRs
  | [] => Run.throwErr MergeMrError.mrNotFound
  | [mr] =>
    if mr.has_conflicts then Run.throwErr MergeMrError.mrHasConflicts
    else do
      let diffs ← Run.callOk ApiCall.getDiffs env.diffs
      if !(isMRContainsSubmoduleSHA a.githubRepositorySHA diffs) then
        Run.throwErr MergeMrError.mrDiffMissingExpectedSHA
      else do
        let result ← Run.callOk
          (ApiCall.merge (parseBooleanEnvVar env.mergeWhenPipelineSucceedsEnvVar)
            mr.sha (mergeCommitMessage a))
          env.mergeResult
        if result.state == "merged" then
          Run.pure MergeOutcome.confirmedMerged
        else
          match result.pipeline with
          | some p =>
            if p.status == "canceled" || p.status == "failed" then
              Run.throwErr (MergeMrError.mergeNotCompletedPipeline p.status)
            else if p.status == "success" then
              Run.throwErr MergeMrError.mergeNotCompletedUnknown
            else
              Run.pure MergeOutcome.pendingNoConfirmation
          | none => Run.pure MergeOutcome.pendingNoConfirmation

/-- CLAIM C6: when the single open MR reports `has_conflicts = true`,
`mergeMr` throws the conflicts error with only the listing call performed:
no diff fetch and no merge call are issued, regardless of diff content. -/
theorem mergeMr_conflicts_blocks (a : MergeArgs) (env : MergeMrEnv) (mr : MergeRequest)
    (h1 : env.listedMRs = [mr]) (h2 : mr.has_conflicts = true) :
    mergeMr a env = ⟨Except.error MergeMrError.mrHasConflicts, [ApiCall.listMRs]⟩ := by
  simp [mergeMr, Run.bind_eq, Run.bind, Run.callOk, Run.throwErr, h1, h2]

/-- Witness for C6: a concrete conflicted MR makes `mergeMr` fail with the
conflicts error after only the listing call. -/
theorem mergeMr_conflicts_blocks_witness :
    mergeMr ⟨"main", "feature/x", "abc123", "my-sdk"⟩
        ⟨[⟨5, true, "sha5"⟩],
         [⟨"monite-sdk", "monite-sdk", "+Subproject commit abc123\n"⟩],
         ⟨"merged", none⟩, none⟩
      = ⟨Except.error MergeMrError.mrHasConflicts, [ApiCall.listMRs]⟩ :=
  mergeMr_conflicts_blocks _ _ ⟨5, true, "sha5"⟩ rfl rfl

/-- Comparison definition written from the specification text (§4.6,
precondition 3), for refinement against the code: the diff set must contain
a diff whose old and new paths are the submodule pointer path and whose diff
text contains the literal addition of the expected external SHA as the new
submodule pointer. -/
def specDiffContainsExpectedSHA (submodulePointerPath githubRepositorySHA : String)
    (diffs : List MRDiff) : Bool :=
  diffs.any fun diff =>
    diff.new_path == submodulePointerPath && diff.old_path == submodulePointerPath &&
      stringIncludes diff.diff ("+Subproject commit " ++ githubRepositorySHA ++ "\n")

/-- Counterexample for C2 as stated: for a submodule whose pointer path is
`my-sdk`, a merge request whose diff set does satisfy the spec-side check
(old and new paths equal to the pointer path, diff text containing the
expected-SHA addition) still fails with the missing-expected-SHA error,
because the code compares the paths against the hardcoded literal
`monite-sdk`, not against the submodule pointer path. -/
theorem mergeMr_diff_check_cex :
    specDiffContainsExpectedSHA "my-sdk" "abc123"
        [⟨"my-sdk", "my-sdk", "-Subproject commit 0a0a\n+Subproject commit abc123\n"⟩] = true
    ∧ (mergeMr ⟨"main", "feature/x", "abc123", "my-sdk"⟩
          ⟨[⟨7, false, "headsha"⟩],
           [⟨"my-sdk", "my-sdk", "-Subproject commit 0a0a\n+Subproject commit abc123\n"⟩],
           ⟨"merged", none⟩, none⟩).result
        = Except.error MergeMrError.mrDiffMissingExpectedSHA := by
  constructor
  · decide
  · rfl

/-- CLAIM C2 (amended): with a single open MR without conflicts, `mergeMr`
fails with the missing-expected-SHA error, before any merge is requested,
exactly when no diff has `old_path` and `new_path` both equal to the literal
string `monite-sdk` with diff text containing
`+Subproject commit <expected SHA>` followed by a newline; the resolved
submodule pointer path of the given logical name is never consulted. -/
theorem mergeMr_diff_check (a : MergeArgs) (env : MergeMrEnv) (mr : MergeRequest)
    (h1 : env.listedMRs = [mr]) (h2 : mr.has_conflicts = false) :
    ((mergeMr a env).result = Except.error MergeMrError.mrDiffMissingExpectedSHA
        ↔ isMRContainsSubmoduleSHA a.githubRepositorySHA env.diffs = false)
    ∧ (isMRContainsSubmoduleSHA a.githubRepositorySHA env.diffs = false →
        (mergeMr a env).trace = [ApiCall.listMRs, ApiCall.getDiffs]) := by
  cases hb : isMRContainsSubmoduleSHA a.githubRepositorySHA env.diffs with
  | false =>
    refine ⟨?_, fun _ => ?_⟩ <;>
      simp [mergeMr, Run.bind_eq, Run.bind, Run.callOk, Run.throwErr, h1, h2, hb]
  | true =>
    have hres : (mergeMr a env).result
        ≠ Except.error MergeMrError.mrDiffMissingExpectedSHA := by
      simp [mergeMr, Run.bind_eq, Run.bind, Run.callOk, Run.throwErr, Run.pure,
        h1, h2, hb]
      split
      · simp
      · split
        · split
          · simp
          · split <;> simp
        · simp
    refine ⟨⟨fun h => absurd h hres, fun h => ?_⟩, fun h => ?_⟩ <;> simp [hb] at h

/-- Witness for C2 (amended): a concrete single-MR run whose diff set lacks
the `monite-sdk` diff fails with the missing-expected-SHA error after only
the listing and diff calls. -/
theorem mergeMr_diff_check_witness :
    (((mergeMr ⟨"main", "feature/x", "abc123", "my-sdk"⟩
          ⟨[⟨7, false, "headsha"⟩], [], ⟨"merged", none⟩, none⟩).result
        = Except.error MergeMrError.mrDiffMissingExpectedSHA)
      ↔ isMRContainsSubmoduleSHA "abc123" [] = false)
    ∧ (isMRContainsSubmoduleSHA "abc123" [] = false →
        (mergeMr ⟨"main", "feature/x", "abc123", "my-sdk"⟩
            ⟨[⟨7, false, "headsha"⟩], [], ⟨"merged", none⟩, none⟩).trace
          = [ApiCall.listMRs, ApiCall.getDiffs]) :=
  mergeMr_diff_check _ _ ⟨7, false, "headsha"⟩ rfl rfl

/-- CLAIM C5: classification of the merge call outcome.  If the returned
state is `merged`, `mergeMr` returns with the success confirmation; if the
state is not `merged` and the pipeline status is `canceled` or `failed`, it
throws the error naming that status; if the state is not `merged` and the
pipeline status is `success`, it throws the unexplained-non-merge error; for
any other pipeline status (including an absent pipeline) it returns without
error and without confirming completion. -/
theorem mergeMr_outcome_classification (a : MergeArgs) (env : MergeMrEnv) (mr : MergeRequest)
    (h1 : env.listedMRs = [mr]) (h2 : mr.has_conflicts = false)
    (h3 : isMRContainsSubmoduleSHA a.githubRepositorySHA env.diffs = true) :
    (env.mergeResult.state = "merged" →
        (mergeMr a env).result = Except.ok MergeOutcome.confirmedMerged)
    ∧ (env.mergeResult.state ≠ "merged" → ∀ p, env.mergeResult.pipeline = some p →
        ((p.status = "canceled" ∨ p.status = "failed") →
            (mergeMr a env).result
              = Except.error (MergeMrError.mergeNotCompletedPipeline p.status))
        ∧ (p.status = "success" →
            (mergeMr a env).result = Except.error MergeMrError.mergeNotCompletedUnknown)
        ∧ (p.status ≠ "canceled" → p.status ≠ "failed" → p.status ≠ "success" →
            (mergeMr a env).result = Except.ok MergeOutcome.pendingNoConfirmation))
    ∧ (env.mergeResult.state ≠ "merged" → env.mergeResult.pipeline = none →
        (mergeMr a env).result = Except.ok MergeOutcome.pendingNoConfirmation) := by
  refine ⟨?_, ?_, ?_⟩
  · intro hs
    simp [mergeMr, Run.bind_eq, Run.bind, Run.callOk, Run.throwErr, Run.pure,
      h1, h2, h3, hs]
  · intro hs p hp
    refine ⟨?_, ?_, ?_⟩
    · intro hst
      rcases hst with hst | hst <;>
        simp [mergeMr, Run.bind_eq, Run.bind, Run.callOk, Run.throwErr, Run.pure,
          h1, h2, h3, hs, hp, hst]
    · intro hst
      simp [mergeMr, Run.bind_eq, Run.bind, Run.callOk, Run.throwErr, Run.pure,
        h1, h2, h3, hs, hp, hst]
    · intro hc hf hsu
      simp [mergeMr, Run.bind_eq, Run.bind, Run.callOk, Run.throwErr, Run.pure,
        h1, h2, h3, hs, hp, hc, hf, hsu]
  · intro hs hp
    simp [mergeMr, Run.bind_eq, Run.bind, Run.callOk, Run.throwErr, Run.pure,
      h1, h2, h3, hs, hp]

/-- Witness for C5: a concrete run whose merge call returns state `merged`
is reported as a confirmed success. -/
theorem mergeMr_outcome_classification_witness :
    isMRContainsSubmoduleSHA "abc123"
        [⟨"monite-sdk", "monite-sdk", "-Subproject commit 0a0a\n+Subproject commit abc123\n"⟩]
      = true
    ∧ (mergeMr ⟨"main", "feature/x", "abc123", "my-sdk"⟩
          ⟨[⟨9, false, "headsha"⟩],
           [⟨"monite-sdk", "monite-sdk", "-Subproject commit 0a0a\n+Subproject commit abc123\n"⟩],
           ⟨"merged", none⟩, none⟩).result
        = Except.ok MergeOutcome.confirmedMerged :=
  ⟨by decide,
    (mergeMr_outcome_classification _ _ ⟨9, false, "headsha"⟩ rfl rfl (by decide)).1 rfl⟩

/-! ## The merge-request phase of `syncBranch` (src/commands/sync-branch.ts)

`syncBranch` first runs `upsertBranch` (embedded further below) and then, on
its success, lists the open MRs for the derived (source, target) pair and
creates or edits the merge request.  The phase below embeds that second part
(lines 45-111 of src/commands/sync-branch.ts). -/

/-- The command-line inputs of `syncBranch`; `githubRepositorySHA` is
optional there. -/
structure SyncArgs where
  gitlabTargetBranch : String
  githubRepositoryBranch : String
  githubRepositorySHA : Option String
  githubProjectSubmoduleName : String
deriving DecidableEq

/-- The JavaScript regular-expression test `/\d+$/.test(s)`: the string ends
with at least one decimal digit. -/
def endsWithDigit (s : String) : Bool :=
  match s.data.getLast? with
  | some c => c.isDigit
  | none => false

/-- Embeds `getGithubPullRequestUrl` of src/commands/sync-branch.ts.
`envVar` is `process.env.GITHUB_PR_URL`; `urlToString` is the result of
`new URL(envVar).toString()` (`none` when the constructor throws), which is
external WHATWG URL parsing and therefore supplied by the environment.  An
unset or empty variable, a throwing parse, or a parsed URL not ending in a
digit all yield `undefined`. -/
def getGithubPullRequestUrl (envVar urlToString : Option String) : Option String :=
  match envVar with
  | none => none
  | some raw =>
    if raw.isEmpty then none
    else
      match urlToString with
      | none => none
      | some u => if endsWithDigit u then some u else none

/-- JavaScript template-literal rendering of a possibly-`undefined` string:
`undefined` interpolates as the text `undefined`. -/
def jsRenderOptString : Option String → String
  | some s => s
  | none => "undefined"

/-- Embeds `createGitlabMergeRequestInfo` of src/commands/sync-branch.ts:
the MR title and description, with the external branch rendered as a
markdown link when a usable pull-request URL is present. -/
def createGitlabMergeRequestInfo (a : SyncArgs) (githubPullRequestUrl : Option String) :
    String × String :=
  let submoduleBranchNameMarkdown :=
    match githubPullRequestUrl with
    | some url => "[`" ++ a.githubRepositoryBranch ++ "`](" ++ url ++ ")"
    | none => "`" ++ a.githubRepositoryBranch ++ "`"
  ("chore(" ++ a.githubProjectSubmoduleName ++ "): update submodule to \x27" ++
      a.githubRepositoryBranch ++ "\x27",
    "This MR updates the `" ++ a.githubProjectSubmoduleName ++
      "` submodule to the SHA commit `" ++ jsRenderOptString a.githubRepositorySHA ++
      "` on the " ++ submoduleBranchNameMarkdown ++ " branch.")

/-- The errors of the MR phase of `syncBranch`, one per `throw` site. -/
inductive SyncError : Type
  | multipleOpenMRs
  | mrNotCreated
deriving DecidableEq

/-- Environment for one MR phase of `syncBranch`: the listing response for
the (source, target) pair, the `iid` GitLab assigned on create (`0` models a
create response with a falsy `iid`), and the `GITHUB_PR_URL` material. -/
structure SyncMrEnv where
  listedMRs : List MergeRequest
  createdMrIid : Nat
  githubPrUrlEnvVar : Option String
  githubPrUrlParsed : Option String
deriving DecidableEq

/-- Embeds lines 45-111 of src/commands/sync-branch.ts: list the open MRs
for the (source, target) pair; more than one is a consistency fault; one is
edited in place (title and description, with `removeSourceBranch: true` in
the options); zero leads to a create (also with `removeSourceBranch: true`),
failing when the created MR comes back without an `iid`. -/
def syncBranchMrPhase (a : SyncArgs) (env : SyncMrEnv) : Run SyncError ApiCall Unit := do
  let mrs ← Run.callOk ApiCall.listMRs env.listedMRs
  let info := createGitlabMergeRequestInfo a
    (getGithubPullRequestUrl env.githubPrUrlEnvVar env.githubPrUrlParsed)
  match mrs with
  | _ :: _ :: _ => Run.throwErr SyncError.multipleOpenMRs
  | [existingMr] => do
    let _ ← Run.callOk (ApiCall.editMR existingMr.iid true info.1 info.2) ()
    Run.pure ()
  | [] => do
    let newMrIid ← Run.callOk (ApiCall.createMR true info.1 info.2) env.createdMrIid
    if newMrIid = 0 then Run.throwErr SyncError.mrNotCreated else Run.pure ()

/-- GitLab-side effect of the traced MR calls on the list of open MRs for
the (source, target) pair: `createMR` appends the record GitLab created
(with the assigned iid), `editMR` rewrites title and description of an
existing MR and adds none, and the remaining calls are reads. -/
def mrStoreAfterCalls (store : List MergeRequest) (createdIid : Nat) :
    List ApiCall → List MergeRequest
  | [] => store
  | ApiCall.createMR _ _ _ :: rest =>
      mrStoreAfterCalls (store ++ [⟨createdIid, false, ""⟩]) createdIid rest
  | _ :: rest => mrStoreAfterCalls store createdIid rest

/-- CLAIM C7: in both the sync path and the merge path, a listing with more
than one open MR for the derived pair fails with the multiple-open-MRs
error, with only the listing call in the trace — so no MR is created or
edited and no merge is requested. -/
theorem multiple_open_mrs_fail (a1 : MergeArgs) (env1 : MergeMrEnv)
    (a2 : SyncArgs) (env2 : SyncMrEnv)
    (h1 : 2 ≤ env1.listedMRs.length) (h2 : 2 ≤ env2.listedMRs.length) :
    mergeMr a1 env1 = ⟨Except.error MergeMrError.multipleOpenMRs, [ApiCall.listMRs]⟩
    ∧ syncBranchMrPhase a2 env2
        = ⟨Except.error SyncError.multipleOpenMRs, [ApiCall.listMRs]⟩ := by
  constructor
  · rcases henv : env1.listedMRs with - | ⟨x, - | ⟨y, rest⟩⟩
    · rw [henv] at h1; simp at h1
    · rw [henv] at h1; simp at h1
    · simp [mergeMr, Run.bind_eq, Run.bind, Run.callOk, Run.throwErr, henv]
  · rcases henv : env2.listedMRs with - | ⟨x, - | ⟨y, rest⟩⟩
    · rw [henv] at h2; simp at h2
    · rw [henv] at h2; simp at h2
    · simp [syncBranchMrPhase, Run.bind_eq, Run.bind, Run.callOk, Run.throwErr, henv]

/-- Witness for C7: concrete two-element listings make both paths fail with
the multiple-open-MRs error after the listing call only. -/
theorem multiple_open_mrs_fail_witness :
    mergeMr ⟨"main", "feature/x", "abc123", "my-sdk"⟩
        ⟨[⟨1, false, "s1"⟩, ⟨2, false, "s2"⟩], [], ⟨"merged", none⟩, none⟩
      = ⟨Except.error MergeMrError.multipleOpenMRs, [ApiCall.listMRs]⟩
    ∧ syncBranchMrPhase ⟨"main", "feature/x", some "abc123", "my-sdk"⟩
        ⟨[⟨1, false, "s1"⟩, ⟨2, false, "s2"⟩], 3, none, none⟩
      = ⟨Except.error SyncError.multipleOpenMRs, [ApiCall.listMRs]⟩ :=
  multiple_open_mrs_fail _ _ _ _ (by decide) (by decide)

/-- One run of the MR phase of `syncBranch` against the GitLab-side store of
open MRs for the (source, target) pair: the listing returns the store, and
the resulting store reflects the calls the run performed. -/
def syncStoreAfterRun (a : SyncArgs) (env : SyncMrEnv) (store : List MergeRequest) :
    List MergeRequest :=
  mrStoreAfterCalls store env.createdMrIid
    (syncBranchMrPhase a { env with listedMRs := store }).trace

/-- CLAIM C8: with exactly one open MR listed, the MR phase of `syncBranch`
edits that MR in place (title and description, `removeSourceBranch: true`)
and creates nothing; with zero listed it creates a new MR with
`removeSourceBranch: true`; and running the phase twice against the
GitLab-side store, starting from no open MR, leaves exactly one open merge
request, the second run editing rather than duplicating. -/
theorem syncBranch_mr_idempotent (a : SyncArgs) (env : SyncMrEnv) :
    let info := createGitlabMergeRequestInfo a
      (getGithubPullRequestUrl env.githubPrUrlEnvVar env.githubPrUrlParsed)
    (∀ mr, env.listedMRs = [mr] →
      syncBranchMrPhase a env
        = ⟨Except.ok (), [ApiCall.listMRs, ApiCall.editMR mr.iid true info.1 info.2]⟩)
    ∧ (env.listedMRs = [] →
        (syncBranchMrPhase a env).trace
          = [ApiCall.listMRs, ApiCall.createMR true info.1 info.2])
    ∧ (env.createdMrIid ≠ 0 →
        (syncBranchMrPhase a { env with listedMRs := [] }).result = Except.ok ()
        ∧ syncStoreAfterRun a env [] = [⟨env.createdMrIid, false, ""⟩]
        ∧ syncBranchMrPhase a { env with listedMRs := syncStoreAfterRun a env [] }
            = ⟨Except.ok (), [ApiCall.listMRs,
                ApiCall.editMR env.createdMrIid true info.1 info.2]⟩
        ∧ syncStoreAfterRun a env (syncStoreAfterRun a env [])
            = syncStoreAfterRun a env []) := by
  intro info
  refine ⟨?_, ?_, ?_⟩
  · intro mr hmr
    simp [syncBranchMrPhase, Run.bind_eq, Run.bind, Run.callOk, Run.pure, hmr, info]
  · intro h0
    simp [syncBranchMrPhase, Run.bind_eq, Run.bind, Run.callOk, Run.pure, Run.throwErr,
      h0, info]
    split <;> rfl
  · intro hiid
    have hstore : syncStoreAfterRun a env [] = [⟨env.createdMrIid, false, ""⟩] := by
      simp [syncStoreAfterRun, syncBranchMrPhase, Run.bind_eq, Run.bind, Run.callOk,
        Run.pure, Run.throwErr, mrStoreAfterCalls]
      split <;> rfl
    refine ⟨?_, hstore, ?_, ?_⟩
    · simp [syncBranchMrPhase, Run.bind_eq, Run.bind, Run.callOk, Run.pure, Run.throwErr,
        hiid]
    · rw [hstore]
      simp [syncBranchMrPhase, Run.bind_eq, Run.bind, Run.callOk, Run.pure, info]
    · rw [hstore]
      simp [syncStoreAfterRun, syncBranchMrPhase, Run.bind_eq, Run.bind, Run.callOk,
        Run.pure, mrStoreAfterCalls, hstore]

/-- Witness for C8: with a concrete environment that lists no open MR and a
create call that returns iid 4, two runs of the MR phase end with exactly
one open merge request, the second run editing it. -/
theorem syncBranch_mr_idempotent_witness :
    let a : SyncArgs := ⟨"main", "feature/x", some "abc123", "my-sdk"⟩
    let env : SyncMrEnv := ⟨[], 4, none, none⟩
    let info := createGitlabMergeRequestInfo a
      (getGithubPullRequestUrl env.githubPrUrlEnvVar env.githubPrUrlParsed)
    (∀ mr, env.listedMRs = [mr] →
      syncBranchMrPhase a env
        = ⟨Except.ok (), [ApiCall.listMRs, ApiCall.editMR mr.iid true info.1 info.2]⟩)
    ∧ (env.listedMRs = [] →
        (syncBranchMrPhase a env).trace
          = [ApiCall.listMRs, ApiCall.createMR true info.1 info.2])
    ∧ (env.createdMrIid ≠ 0 →
        (syncBranchMrPhase a { env with listedMRs := [] }).result = Except.ok ()
        ∧ syncStoreAfterRun a env [] = [⟨env.createdMrIid, false, ""⟩]
        ∧ syncBranchMrPhase a { env with listedMRs := syncStoreAfterRun a env [] }
            = ⟨Except.ok (), [ApiCall.listMRs,
                ApiCall.editMR env.createdMrIid true info.1 info.2]⟩
        ∧ syncStoreAfterRun a env (syncStoreAfterRun a env [])
            = syncStoreAfterRun a env []) :=
  syncBranch_mr_idempotent ⟨"main", "feature/x", some "abc123", "my-sdk"⟩ ⟨[], 4, none, none⟩

/-! ## The `upsertBranch` pipeline

Embeds `upsertBranch` and its helpers.  The pipeline appears twice in the
sources (src/lib/upsert-branch.ts, and a second copy concatenated into
src/lib/temp-dir.ts); the two copies differ only in the provenance check of
`validateIsSubmoduleSyncBranch`.  The specification (§9) designates the
defensive variant — the one with structured log entries and an explicit
per-item type check, found in the temp-dir.ts copy — as authoritative and
the other as superseded by an in-progress refactor; the embedding below
follows the authoritative variant. -/

/-- JavaScript regular-expression word character: `[A-Za-z0-9_]`. -/
def isJsWordChar (c : Char) : Bool :=
  (c ≥ 'a' && c ≤ 'z') || (c ≥ 'A' && c ≤ 'Z') || (c ≥ '0' && c ≤ '9') || c == '_'

/-- Wordness of the character on one side of a candidate word boundary;
outside the string counts as non-word. -/
def wordnessOpt : Option Char → Bool
  | none => false
  | some c => isJsWordChar c

/-- A `\b` word boundary holds between two (optional) adjacent characters
when exactly one of them is a word character. -/
def isWordBoundary (a b : Option Char) : Bool :=
  wordnessOpt a != wordnessOpt b

/-- The pattern `\b<salt>\b` matches at the current position: the salt is a
literal prefix of the remaining characters, with word boundaries on both
sides.  `prev` is the character just before the current position. -/
def saltMatchesHere (salt : List Char) (prev : Option Char) (rest : List Char) : Bool :=
  listIsPrefixOf salt rest
    && isWordBoundary prev rest.head?
    && isWordBoundary
        (match salt.getLast? with
          | some c => some c
          | none => prev)
        (rest.drop salt.length).head?

/-- Scan of all match positions, left to right. -/
def searchSaltFrom (salt : List Char) : Option Char → List Char → Bool
  | prev, [] => saltMatchesHere salt prev []
  | prev, c :: rest => saltMatchesHere salt prev (c :: rest) || searchSaltFrom salt (some c) rest

/-- Embeds `new RegExp(`\\b${commitMessageSalt}\\b`).test(message)` of the
authoritative `validateIsSubmoduleSyncBranch` (temp-dir.ts copy, lines
296-298), for a salt containing no regex metacharacters — true of the
default salt `submodule-auto-sync`, in which the hyphen is a literal. -/
def hasSaltToken (commitMessageSalt message : String) : Bool :=
  searchSaltFrom commitMessageSalt.data none message.data

/-- One entry of the `git log` result as typed in the authoritative variant:
`{ message: string } | string`, where a `message` field that is not a string
is modelled by `record none`. -/
inductive LogItem : Type
  | str (s : String)
  | record (message : Option String)
deriving DecidableEq

/-- The expression `typeof logItem === 'string' ? logItem : logItem.message`;
`none` is the case the code rejects with `Invalid log comment`. -/
def logComment : LogItem → Option String
  | LogItem.str s => some s
  | LogItem.record m => m

/-- The git and filesystem operations performed by `upsertBranch`, with the
arguments the claims mention. -/
inductive Effect : Type
  | mkdirTempDir
  | apiGetCurrentUser
  | apiGetProject
  | gitClone
  | gitAddConfig (key : String)
  | gitFetch (remote branch : String)
  | gitCheckoutBranch (branch startPoint : String)
  | gitLog (fromRef toRef : String)
  | gitResetHard (ref : String)
  | gitConfigSubmodulePath (submoduleName : String)
  | gitListRemoteHeads (branch : String)
  | gitSubmoduleUpdateInit (submoduleName : String)
  | submoduleFetch (remote branch : String)
  | submoduleCheckoutBranch (branch startPoint : String)
  | submoduleCheckout (ref : String)
  | submoduleRevparseHead
  | gitAdd (path : String)
  | gitCommit (message : String)
  | gitPushForce (branch : String)
  | rmTempDir
deriving DecidableEq

/-- The errors `upsertBranch` and its helpers can throw, one constructor per
`throw` site (`fetchTargetBranchFailed` is shared between the fallback
checkout and the provenance validation, as in the source). -/
inductive UpsertError : Type
  | tempDirNotEmpty
  | getUserDataFailed
  | getProjectFailed
  | cloneFailed
  | setUserEmailFailed
  | setUserNameFailed
  | fetchSourceBranchFailed
  | checkoutSourceBranchFailed
  | fetchTargetBranchFailed
  | checkoutFromTargetFailed
  | getLogFailed
  | invalidLogComment
  | driftDetected
  | resetHardFailed
  | getSubmodulePathFailed
  | submodulePathNotFound
  | listSubmoduleRemoteFailed
  | submoduleInitFailed
  | submoduleFetchFailed
  | submoduleCheckoutBranchFailed
  | submoduleCheckoutShaFailed
  | revparseHeadFailed
  | submoduleShaMismatch (actual expected : String)
  | addFailed
  | commitFailed
  | pushFailed
deriving DecidableEq

/-- An `upsertBranch` computation: result plus ordered effect trace. -/
abbrev UpsertM (α : Type) : Type := Run UpsertError Effect α

/-- The inputs of `upsertBranch`, with the `commitMessageSalt` parameter
(default `submodule-auto-sync`; no caller in the repository overrides it). -/
structure UpsertArgs where
  gitlabTargetBranch : String
  githubRepositoryBranch : String
  githubRepositorySHA : Option String
  githubProjectSubmoduleName : String
  gitlabSourceBranch : String
  commitMessageSalt : String
deriving DecidableEq

/-- The default of the `commitMessageSalt` parameter. -/
def defaultCommitMessageSalt : String := "submodule-auto-sync"

/-- Environment for one `upsertBranch` run: the outcome of every external
call, in program order.  Boolean fields record success of calls whose value
the code does not read; `Option` fields additionally carry the returned
data (`none` models the call throwing). -/
structure GitEnv where
  tempDirEmpty : Bool
  showCurrentUserOk : Bool
  showProjectOk : Bool
  cloneOk : Bool
  addConfigEmailOk : Bool
  addConfigNameOk : Bool
  fetchSourceOk : Bool
  checkoutSourceOk : Bool
  fetchTargetFallbackOk : Bool
  checkoutFromTargetOk : Bool
  fetchTargetValidateOk : Bool
  logEntries : Option (List LogItem)
  resetOk : Bool
  submoduleConfigPathRaw : Option String
  listRemoteHeadsRaw : Option String
  submoduleUpdateInitOk : Bool
  submoduleFetchOk : Bool
  submoduleCheckoutBranchOk : Bool
  submoduleCheckoutShaOk : Bool
  revparseHeadRaw : Option String
  addOk : Bool
  commitOk : Bool
  pushOk : Bool
deriving DecidableEq

/-- Embeds `cloneGitlabRepo`: current-user lookup, project lookup, clone,
and the two `git config` calls for the commit identity. -/
def cloneGitlabRepo (env : GitEnv) : UpsertM Unit := do
  Run.step Effect.apiGetCurrentUser env.showCurrentUserOk UpsertError.getUserDataFailed
  Run.step Effect.apiGetProject env.showProjectOk UpsertError.getProjectFailed
  Run.step Effect.gitClone env.cloneOk UpsertError.cloneFailed
  Run.step (Effect.gitAddConfig "user.email") env.addConfigEmailOk UpsertError.setUserEmailFailed
  Run.step (Effect.gitAddConfig "user.name") env.addConfigNameOk UpsertError.setUserNameFailed

/-- Embeds `checkoutGitlabSourceBranch`: fetch and checkout of the sync
branch from its own remote ref, with the `.catch` fallback that fetches the
target branch and branches the sync branch off it when either primary step
fails. -/
def checkoutGitlabSourceBranch (a : UpsertArgs) (env : GitEnv) : UpsertM Unit :=
  let primary : UpsertM Unit := do
    Run.step (Effect.gitFetch "origin" a.gitlabSourceBranch) env.fetchSourceOk
      UpsertError.fetchSourceBranchFailed
    Run.step (Effect.gitCheckoutBranch a.gitlabSourceBranch ("origin/" ++ a.gitlabSourceBranch))
      env.checkoutSourceOk UpsertError.checkoutSourceBranchFailed
  match primary.result with
  | Except.ok _ => primary
  | Except.error _ =>
    let fallback : UpsertM Unit := do
      Run.step (Effect.gitFetch "origin" a.gitlabTargetBranch) env.fetchTargetFallbackOk
        UpsertError.fetchTargetBranchFailed
      Run.step (Effect.gitCheckoutBranch a.gitlabSourceBranch ("origin/" ++ a.gitlabTargetBranch))
        env.checkoutFromTargetOk UpsertError.checkoutFromTargetFailed
    ⟨fallback.result, primary.trace ++ fallback.trace⟩

/-- The `log.all.some(...)` scan of the authoritative
`validateIsSubmoduleSyncBranch`: stops with `Invalid log comment` at the
first entry whose comment is not a string, and with `true` at the first
entry whose comment lacks the salt token. -/
def findLogItemWithoutSalt (commitMessageSalt : String) :
    List LogItem → Except UpsertError Bool
  | [] => Except.ok false
  | item :: rest =>
    match logComment item with
    | none => Except.error UpsertError.invalidLogComment
    | some msg =>
      if hasSaltToken commitMessageSalt msg then findLogItemWithoutSalt commitMessageSalt rest
      else Except.ok true

/-- Embeds the authoritative `validateIsSubmoduleSyncBranch` (temp-dir.ts
copy, lines 256-317): fetch the target branch tip, list the commit subjects
of the range `origin/<target>..<sync branch>`, and throw the drift error
when some commit message lacks the salt token. -/
def validateIsSubmoduleSyncBranch (a : UpsertArgs) (env : GitEnv) : UpsertM Unit := do
  Run.step (Effect.gitFetch "origin" a.gitlabTargetBranch) env.fetchTargetValidateOk
    UpsertError.fetchTargetBranchFailed
  let log ← (match env.logEntries with
    | some items =>
        Run.callOk (Effect.gitLog ("origin/" ++ a.gitlabTargetBranch) a.gitlabSourceBranch) items
    | none =>
        Run.callFail (Effect.gitLog ("origin/" ++ a.gitlabTargetBranch) a.gitlabSourceBranch)
          UpsertError.getLogFailed)
  match findLogItemWithoutSalt a.commitMessageSalt log with
  | Except.error e => Run.throwErr e
  | Except.ok true => Run.throwErr UpsertError.driftDetected
  | Except.ok false => Run.pure ()

/-- Embeds `resetGitlabRepoBranch`: the provenance validation followed by
the hard reset of the sync branch to `origin/<target>`. -/
def resetGitlabRepoBranch (a : UpsertArgs) (env : GitEnv) : UpsertM Unit := do
  validateIsSubmoduleSyncBranch a env
  Run.step (Effect.gitResetHard ("origin/" ++ a.gitlabTargetBranch)) env.resetOk
    UpsertError.resetHardFailed

/-- JavaScript `String.prototype.trim`: strip whitespace from both ends. -/
def jsTrim (s : String) : String :=
  String.mk (((s.data.dropWhile Char.isWhitespace).reverse.dropWhile Char.isWhitespace).reverse)

/-- Embeds `getSubmodulePath`: read
`submodule.<name>.path` from `.gitmodules`, trim it (`res.trim()`), and
reject an empty result. -/
def getSubmodulePath (a : UpsertArgs) (env : GitEnv) : UpsertM String := do
  let raw ← (match env.submoduleConfigPathRaw with
    | some s => Run.callOk (Effect.gitConfigSubmodulePath a.githubProjectSubmoduleName) s
    | none => Run.callFail (Effect.gitConfigSubmodulePath a.githubProjectSubmoduleName)
        UpsertError.getSubmodulePathFailed)
  let submodulePath := jsTrim raw
  if submodulePath.isEmpty then Run.throwErr UpsertError.submodulePathNotFound
  else Run.pure submodulePath

/-- Head of a JavaScript `result.split(/\s+/)`: empty when the string is
empty or starts with whitespace, otherwise the maximal leading run of
non-whitespace characters. -/
def jsSplitWhitespaceFirst (s : String) : String :=
  match s.data with
  | [] => ""
  | c :: _ =>
    if c.isWhitespace then ""
    else String.mk (s.data.takeWhile fun ch => !ch.isWhitespace)

/-- Embeds `getRepoBranchHeadSHA`: `git ls-remote --heads <branch>` in the
submodule directory, keeping the first whitespace-separated token. -/
def getRepoBranchHeadSHA (branch : String) (env : GitEnv) : UpsertM String :=
  match env.listRemoteHeadsRaw with
  | some s => Run.callOk (Effect.gitListRemoteHeads branch) (jsSplitWhitespaceFirst s)
  | none => Run.callFail (Effect.gitListRemoteHeads branch) UpsertError.listSubmoduleRemoteFailed

/-- Embeds `checkoutSubmoduleBranch`: resolve the submodule path, resolve
the desired SHA (the explicit one when truthy, otherwise the remote head of
the external branch), init the submodule, fetch and check out the branch,
check out the SHA, and verify the resulting head equals the desired SHA. -/
def checkoutSubmoduleBranch (a : UpsertArgs) (env : GitEnv) : UpsertM Unit := do
  let _submoduleRelativePath ← getSubmodulePath a env
  let submoduleBranchHeadSHA ← (match a.githubRepositorySHA with
    | some s =>
        if s.isEmpty then getRepoBranchHeadSHA a.githubRepositoryBranch env else Run.pure s
    | none => getRepoBranchHeadSHA a.githubRepositoryBranch env)
  Run.step (Effect.gitSubmoduleUpdateInit a.githubProjectSubmoduleName)
    env.submoduleUpdateInitOk UpsertError.submoduleInitFailed
  Run.step (Effect.submoduleFetch "origin" a.githubRepositoryBranch)
    env.submoduleFetchOk UpsertError.submoduleFetchFailed
  Run.step
    (Effect.submoduleCheckoutBranch a.githubRepositoryBranch
      ("origin/" ++ a.githubRepositoryBranch))
    env.submoduleCheckoutBranchOk UpsertError.submoduleCheckoutBranchFailed
  Run.step (Effect.submoduleCheckout submoduleBranchHeadSHA)
    env.submoduleCheckoutShaOk UpsertError.submoduleCheckoutShaFailed
  let branchHeadSHA ← (match env.revparseHeadRaw with
    | some h => Run.callOk Effect.submoduleRevparseHead h
    | none => Run.callFail Effect.submoduleRevparseHead UpsertError.revparseHeadFailed)
  if branchHeadSHA ≠ submoduleBranchHeadSHA then
    Run.throwErr (UpsertError.submoduleShaMismatch branchHeadSHA submoduleBranchHeadSHA)
  else Run.pure ()

/-- The commit message template of `commitGitlabRepoChanges`, salt included
in backticks. -/
def upsertCommitMessage (a : UpsertArgs) : String :=
  "chore: update \x27" ++ a.githubProjectSubmoduleName ++ "\x27 submodule to \x27" ++
    a.githubRepositoryBranch ++ "\x27 `" ++ a.commitMessageSalt ++ "`"

/-- Embeds `commitGitlabRepoChanges`: stage only the submodule path and
commit with `--no-verify`. -/
def commitGitlabRepoChanges (a : UpsertArgs) (env : GitEnv) : UpsertM Unit := do
  let submodulePath ← getSubmodulePath a env
  Run.step (Effect.gitAdd submodulePath) env.addOk UpsertError.addFailed
  Run.step (Effect.gitCommit (upsertCommitMessage a)) env.commitOk UpsertError.commitFailed

/-- Embeds `pushGitlabRepoChanges`: force push of the sync branch with
`--no-verify`. -/
def pushGitlabRepoChanges (a : UpsertArgs) (env : GitEnv) : UpsertM Unit :=
  Run.step (Effect.gitPushForce a.gitlabSourceBranch) env.pushOk UpsertError.pushFailed

/-- The body of `upsertBranch` between workspace creation and disposal:
clone, checkout, validate-and-reset, submodule pin, commit, push, in source
order. -/
def upsertBranchBody (a : UpsertArgs) (env : GitEnv) : UpsertM Unit := do
  cloneGitlabRepo env
  checkoutGitlabSourceBranch a env
  resetGitlabRepoBranch a env
  checkoutSubmoduleBranch a env
  commitGitlabRepoChanges a env
  pushGitlabRepoChanges a env

/-- Embeds `upsertBranch` with the `using repositoryTempDir = new TempDir()`
guard: the constructor creates the directory and throws when it is
non-empty (in which case no disposal is registered); otherwise the
`Symbol.dispose` removal runs when the scope exits, on success and on any
thrown fault alike. -/
def upsertBranch (a : UpsertArgs) (env : GitEnv) : UpsertM Unit :=
  if env.tempDirEmpty then
    let body := upsertBranchBody a env
    ⟨body.result, Effect.mkdirTempDir :: (body.trace ++ [Effect.rmTempDir])⟩
  else
    ⟨Except.error UpsertError.tempDirNotEmpty, [Effect.mkdirTempDir]⟩

/-- Abnormal termination of the host process after `k` external effects:
the remaining effects of the run, the `using` disposal included, never
happen.  Nothing in the repository registers a process-level exit handler,
so a killed process performs exactly a prefix of the run's effects. -/
def upsertBranchEffectsKilled (a : UpsertArgs) (env : GitEnv) (k : Nat) : List Effect :=
  (upsertBranch a env).trace.take k

/-! ## Result and trace lemmas for sequenced runs -/

theorem Run.result_bind_of_ok {ε τ α β : Type} {x : Run ε τ α} {f : α → Run ε τ β}
    {a : α} (h : x.result = Except.ok a) : (x >>= f).result = (f a).result := by
  rw [Run.bind_ok _ _ a h]

theorem Run.result_bind_of_error {ε τ α β : Type} {x : Run ε τ α} {f : α → Run ε τ β}
    {e : ε} (h : x.result = Except.error e) : (x >>= f).result = Except.error e := by
  rw [Run.bind_error _ _ e h]

theorem Run.trace_bind_of_ok {ε τ α β : Type} {x : Run ε τ α} {f : α → Run ε τ β}
    {a : α} (h : x.result = Except.ok a) : (x >>= f).trace = x.trace ++ (f a).trace := by
  rw [Run.bind_ok _ _ a h]

theorem Run.trace_bind_of_error {ε τ α β : Type} {x : Run ε τ α} {f : α → Run ε τ β}
    {e : ε} (h : x.result = Except.error e) : (x >>= f).trace = x.trace := by
  rw [Run.bind_error _ _ e h]

theorem Run.bind_no_err {ε τ α β : Type} {x : Run ε τ α} {f : α → Run ε τ β} {e : ε}
    (hx : x.result ≠ Except.error e) (hf : ∀ a, (f a).result ≠ Except.error e) :
    (x >>= f).result ≠ Except.error e := by
  cases hres : x.result with
  | error e2 =>
    rw [Run.result_bind_of_error hres]
    rw [hres] at hx
    intro hcon
    injection hcon with h2
    exact hx (by rw [h2])
  | ok a =>
    rw [Run.result_bind_of_ok hres]
    exact hf a

theorem Run.bind_trace_all {ε τ α β : Type} {x : Run ε τ α} {f : α → Run ε τ β}
    (P : τ → Prop) (hx : ∀ t ∈ x.trace, P t) (hf : ∀ a, ∀ t ∈ (f a).trace, P t) :
    ∀ t ∈ (x >>= f).trace, P t := by
  cases hres : x.result with
  | error e2 =>
    rw [Run.trace_bind_of_error hres]
    exact hx
  | ok a =>
    rw [Run.trace_bind_of_ok hres]
    intro t ht
    rcases List.mem_append.mp ht with h1 | h2
    · exact hx t h1
    · exact hf a t h2

theorem Run.step_no_err {ε τ : Type} {t : τ} {ok : Bool} {err e : ε} (h : err ≠ e) :
    (Run.step t ok err).result ≠ Except.error e := by
  cases ok
  · simp [Run.step]
    exact h
  · simp [Run.step]

theorem Run.callOk_no_err {ε τ α : Type} {t : τ} {a : α} {e : ε} :
    (Run.callOk t a : Run ε τ α).result ≠ Except.error e := by
  simp [Run.callOk]

theorem Run.callFail_no_err {ε τ α : Type} {t : τ} {err e : ε} (h : err ≠ e) :
    (Run.callFail t err : Run ε τ α).result ≠ Except.error e := by
  simp [Run.callFail]
  exact h

theorem Run.pure_no_err {ε τ α : Type} {a : α} {e : ε} :
    (Run.pure a : Run ε τ α).result ≠ Except.error e := by
  simp [Run.pure]

theorem Run.throwErr_no_err {ε τ α : Type} {err e : ε} (h : err ≠ e) :
    (Run.throwErr err : Run ε τ α).result ≠ Except.error e := by
  simp [Run.throwErr]
  exact h

theorem Run.step_trace_all {ε τ : Type} {t : τ} {ok : Bool} {err : ε} {P : τ → Prop}
    (h : P t) : ∀ u ∈ (Run.step t ok err : Run ε τ Unit).trace, P u := by
  intro u hu
  simp [Run.step] at hu
  rw [hu]
  exact h

theorem Run.callOk_trace_all {ε τ α : Type} {t : τ} {a : α} {P : τ → Prop}
    (h : P t) : ∀ u ∈ (Run.callOk t a : Run ε τ α).trace, P u := by
  intro u hu
  simp [Run.callOk] at hu
  rw [hu]
  exact h

theorem Run.callFail_trace_all {ε τ α : Type} {t : τ} {err : ε} {P : τ → Prop}
    (h : P t) : ∀ u ∈ (Run.callFail t err : Run ε τ α).trace, P u := by
  intro u hu
  simp [Run.callFail] at hu
  rw [hu]
  exact h

theorem Run.pure_trace_all {ε τ α : Type} {a : α} {P : τ → Prop} :
    ∀ u ∈ (Run.pure a : Run ε τ α).trace, P u := by
  intro u hu
  simp [Run.pure] at hu

theorem Run.throwErr_trace_all {ε τ α : Type} {err : ε} {P : τ → Prop} :
    ∀ u ∈ (Run.throwErr err : Run ε τ α).trace, P u := by
  intro u hu
  simp [Run.throwErr] at hu

/-! ## Provenance check: characterization (claim C1) -/

theorem findLogItemWithoutSalt_map_str (salt : String) (msgs : List String) :
    findLogItemWithoutSalt salt (msgs.map LogItem.str)
      = Except.ok (msgs.any fun m => !hasSaltToken salt m) := by
  induction msgs with
  | nil => rfl
  | cons m rest ih =>
    simp only [List.map_cons, findLogItemWithoutSalt, logComment, List.any_cons]
    cases h : hasSaltToken salt m with
    | false => simp [h]
    | true => simp [h, ih]

/-- CLAIM C1: with the target-branch fetch succeeding and the log call
returning the commit subjects of the range `origin/<target>..<sync branch>`,
the provenance check fails with the drift error exactly when some commit
message in the range lacks the salt token (the word-bounded regex test of
the source), and passes exactly when every message contains it. -/
theorem provenance_drift_iff (a : UpsertArgs) (env : GitEnv) (msgs : List String)
    (hfetch : env.fetchTargetValidateOk = true)
    (hlog : env.logEntries = some (msgs.map LogItem.str)) :
    ((validateIsSubmoduleSyncBranch a env).result = Except.error UpsertError.driftDetected
      ↔ ∃ m ∈ msgs, hasSaltToken a.commitMessageSalt m = false)
    ∧ ((validateIsSubmoduleSyncBranch a env).result = Except.ok ()
      ↔ ∀ m ∈ msgs, hasSaltToken a.commitMessageSalt m = true) := by
  have hscan := findLogItemWithoutSalt_map_str a.commitMessageSalt msgs
  cases hany : (msgs.any fun m => !hasSaltToken a.commitMessageSalt m) with
  | true =>
    have hres : (validateIsSubmoduleSyncBranch a env).result
        = Except.error UpsertError.driftDetected := by
      simp [validateIsSubmoduleSyncBranch, Run.bind_eq, Run.bind, Run.step, Run.callOk,
        Run.callFail, Run.throwErr, Run.pure, hfetch, hlog, hscan, hany]
    rcases List.any_eq_true.mp hany with ⟨m, hm, hmm⟩
    have hmfalse : hasSaltToken a.commitMessageSalt m = false := by
      simpa using hmm
    constructor
    · rw [hres]
      exact ⟨fun _ => ⟨m, hm, hmfalse⟩, fun _ => rfl⟩
    · rw [hres]
      constructor
      · intro hcon
        exact absurd hcon (by simp)
      · intro hall
        exact absurd (hall m hm) (by simp [hmfalse])
  | false =>
    have hres : (validateIsSubmoduleSyncBranch a env).result = Except.ok () := by
      simp [validateIsSubmoduleSyncBranch, Run.bind_eq, Run.bind, Run.step, Run.callOk,
        Run.callFail, Run.throwErr, Run.pure, hfetch, hlog, hscan, hany]
    have hall : ∀ m ∈ msgs, hasSaltToken a.commitMessageSalt m = true := by
      intro m hm
      cases hx : hasSaltToken a.commitMessageSalt m with
      | true => rfl
      | false =>
        have hx2 : (msgs.any fun x => !hasSaltToken a.commitMessageSalt x) = true :=
          List.any_eq_true.mpr ⟨m, hm, by rw [hx]; rfl⟩
        rw [hany] at hx2
        exact absurd hx2 (by simp)
    constructor
    · rw [hres]
      constructor
      · intro hcon
        exact absurd hcon (by simp)
      · rintro ⟨m, hm, hmfalse⟩
        exact absurd (hall m hm) (by simp [hmfalse])
    · rw [hres]
      exact ⟨fun _ => hall, fun _ => rfl⟩

/-- Witness for C1: with the single unsalted commit subject `evil commit`
in the range, the check fails with the drift error; the iff instantiates at
a concrete environment. -/
theorem provenance_drift_iff_witness :
    ((validateIsSubmoduleSyncBranch
        ⟨"main", "feature/x", some "abc123", "my-sdk", "my-sdk/feature/x",
          "submodule-auto-sync"⟩
        { tempDirEmpty := true, showCurrentUserOk := true, showProjectOk := true,
          cloneOk := true, addConfigEmailOk := true, addConfigNameOk := true,
          fetchSourceOk := true, checkoutSourceOk := true, fetchTargetFallbackOk := true,
          checkoutFromTargetOk := true, fetchTargetValidateOk := true,
          logEntries := some [LogItem.str "evil commit"], resetOk := true,
          submoduleConfigPathRaw := some "vendor/my-sdk", listRemoteHeadsRaw := none,
          submoduleUpdateInitOk := true, submoduleFetchOk := true,
          submoduleCheckoutBranchOk := true, submoduleCheckoutShaOk := true,
          revparseHeadRaw := some "abc123", addOk := true, commitOk := true,
          pushOk := true }).result
      = Except.error UpsertError.driftDetected
      ↔ ∃ m ∈ ["evil commit"], hasSaltToken "submodule-auto-sync" m = false)
    ∧ ((validateIsSubmoduleSyncBranch
        ⟨"main", "feature/x", some "abc123", "my-sdk", "my-sdk/feature/x",
          "submodule-auto-sync"⟩
        { tempDirEmpty := true, showCurrentUserOk := true, showProjectOk := true,
          cloneOk := true, addConfigEmailOk := true, addConfigNameOk := true,
          fetchSourceOk := true, checkoutSourceOk := true, fetchTargetFallbackOk := true,
          checkoutFromTargetOk := true, fetchTargetValidateOk := true,
          logEntries := some [LogItem.str "evil commit"], resetOk := true,
          submoduleConfigPathRaw := some "vendor/my-sdk", listRemoteHeadsRaw := none,
          submoduleUpdateInitOk := true, submoduleFetchOk := true,
          submoduleCheckoutBranchOk := true, submoduleCheckoutShaOk := true,
          revparseHeadRaw := some "abc123", addOk := true, commitOk := true,
          pushOk := true }).result
      = Except.ok ()
      ↔ ∀ m ∈ ["evil commit"], hasSaltToken "submodule-auto-sync" m = true) :=
  provenance_drift_iff _ _ ["evil commit"] rfl rfl

/-! ## Frame property of drift aborts (claim C3) -/

/-- The two destructive repository operations of the pipeline: the hard
reset of the sync branch and the force push. -/
def isDestructiveEffect : Effect → Bool
  | Effect.gitResetHard _ => true
  | Effect.gitPushForce _ => true
  | _ => false

theorem cloneGitlabRepo_no_drift (env : GitEnv) :
    (cloneGitlabRepo env).result ≠ Except.error UpsertError.driftDetected := by
  unfold cloneGitlabRepo
  refine Run.bind_no_err (Run.step_no_err (by decide)) fun _ => ?_
  refine Run.bind_no_err (Run.step_no_err (by decide)) fun _ => ?_
  refine Run.bind_no_err (Run.step_no_err (by decide)) fun _ => ?_
  exact Run.bind_no_err (Run.step_no_err (by decide)) fun _ => Run.step_no_err (by decide)

theorem cloneGitlabRepo_trace_clean (env : GitEnv) :
    ∀ t ∈ (cloneGitlabRepo env).trace, isDestructiveEffect t = false := by
  unfold cloneGitlabRepo
  refine Run.bind_trace_all _ (Run.step_trace_all (by decide)) fun _ => ?_
  refine Run.bind_trace_all _ (Run.step_trace_all (by decide)) fun _ => ?_
  refine Run.bind_trace_all _ (Run.step_trace_all (by decide)) fun _ => ?_
  exact Run.bind_trace_all _ (Run.step_trace_all (by decide)) fun _ =>
    Run.step_trace_all (by decide)

theorem checkoutGitlabSourceBranch_no_drift (a : UpsertArgs) (env : GitEnv) :
    (checkoutGitlabSourceBranch a env).result ≠ Except.error UpsertError.driftDetected := by
  simp only [checkoutGitlabSourceBranch]
  split
  next val heq =>
    rw [heq]
    simp
  next e heq =>
    exact Run.bind_no_err (Run.step_no_err (by decide)) fun _ => Run.step_no_err (by decide)

theorem checkoutGitlabSourceBranch_trace_clean (a : UpsertArgs) (env : GitEnv) :
    ∀ t ∈ (checkoutGitlabSourceBranch a env).trace, isDestructiveEffect t = false := by
  simp only [checkoutGitlabSourceBranch]
  split
  next val heq =>
    exact Run.bind_trace_all _ (Run.step_trace_all rfl) fun _ =>
      Run.step_trace_all rfl
  next e heq =>
    intro t ht
    rcases List.mem_append.mp ht with h1 | h2
    · refine Run.bind_trace_all (fun u => isDestructiveEffect u = false)
        ?_ (fun _ => ?_) t h1
      · exact Run.step_trace_all rfl
      · exact Run.step_trace_all rfl
    · refine Run.bind_trace_all (fun u => isDestructiveEffect u = false)
        ?_ (fun _ => ?_) t h2
      · exact Run.step_trace_all rfl
      · exact Run.step_trace_all rfl

theorem validateIsSubmoduleSyncBranch_trace_clean (a : UpsertArgs) (env : GitEnv) :
    ∀ t ∈ (validateIsSubmoduleSyncBranch a env).trace, isDestructiveEffect t = false := by
  unfold validateIsSubmoduleSyncBranch
  refine Run.bind_trace_all _ (Run.step_trace_all rfl) fun _ => ?_
  refine Run.bind_trace_all _ ?_ fun log => ?_
  · cases env.logEntries with
    | some items => exact Run.callOk_trace_all rfl
    | none => exact Run.callFail_trace_all rfl
  · cases findLogItemWithoutSalt a.commitMessageSalt log with
    | error e => exact Run.throwErr_trace_all
    | ok b =>
      cases b with
      | true => exact Run.throwErr_trace_all
      | false => exact Run.pure_trace_all

theorem getSubmodulePath_no_drift (a : UpsertArgs) (env : GitEnv) :
    (getSubmodulePath a env).result ≠ Except.error UpsertError.driftDetected := by
  unfold getSubmodulePath
  refine Run.bind_no_err ?_ fun raw => ?_
  · cases env.submoduleConfigPathRaw with
    | some s => exact Run.callOk_no_err
    | none => exact Run.callFail_no_err (by decide)
  · dsimp only
    split
    · exact Run.throwErr_no_err (by decide)
    · exact Run.pure_no_err

theorem getRepoBranchHeadSHA_no_drift (branch : String) (env : GitEnv) :
    (getRepoBranchHeadSHA branch env).result ≠ Except.error UpsertError.driftDetected := by
  unfold getRepoBranchHeadSHA
  cases env.listRemoteHeadsRaw with
  | some s => exact Run.callOk_no_err
  | none => exact Run.callFail_no_err (by decide)

theorem checkoutSubmoduleBranch_no_drift (a : UpsertArgs) (env : GitEnv) :
    (checkoutSubmoduleBranch a env).result ≠ Except.error UpsertError.driftDetected := by
  unfold checkoutSubmoduleBranch
  refine Run.bind_no_err (getSubmodulePath_no_drift a env) fun _ => ?_
  refine Run.bind_no_err ?_ fun sha => ?_
  · cases a.githubRepositorySHA with
    | none => exact getRepoBranchHeadSHA_no_drift _ env
    | some s =>
      dsimp only
      split
      · exact getRepoBranchHeadSHA_no_drift _ env
      · exact Run.pure_no_err
  · refine Run.bind_no_err (Run.step_no_err (by decide)) fun _ => ?_
    refine Run.bind_no_err (Run.step_no_err (by decide)) fun _ => ?_
    refine Run.bind_no_err (Run.step_no_err (by decide)) fun _ => ?_
    refine Run.bind_no_err (Run.step_no_err (by decide)) fun _ => ?_
    refine Run.bind_no_err ?_ fun head => ?_
    · cases env.revparseHeadRaw with
      | some h => exact Run.callOk_no_err
      | none => exact Run.callFail_no_err (by decide)
    · dsimp only
      split
      · exact Run.throwErr_no_err (by simp)
      · exact Run.pure_no_err

theorem commitGitlabRepoChanges_no_drift (a : UpsertArgs) (env : GitEnv) :
    (commitGitlabRepoChanges a env).result ≠ Except.error UpsertError.driftDetected := by
  unfold commitGitlabRepoChanges
  refine Run.bind_no_err (getSubmodulePath_no_drift a env) fun _ => ?_
  exact Run.bind_no_err (Run.step_no_err (by decide)) fun _ => Run.step_no_err (by decide)

theorem pushGitlabRepoChanges_no_drift (a : UpsertArgs) (env : GitEnv) :
    (pushGitlabRepoChanges a env).result ≠ Except.error UpsertError.driftDetected := by
  unfold pushGitlabRepoChanges
  exact Run.step_no_err (by decide)

theorem upsertBranchBody_drift_clean (a : UpsertArgs) (env : GitEnv)
    (h : (upsertBranchBody a env).result = Except.error UpsertError.driftDetected) :
    ∀ e ∈ (upsertBranchBody a env).trace, isDestructiveEffect e = false := by
  unfold upsertBranchBody at h ⊢
  cases hc : (cloneGitlabRepo env).result with
  | error ec =>
    rw [Run.result_bind_of_error hc] at h
    injection h with h2
    rw [h2] at hc
    exact absurd hc (cloneGitlabRepo_no_drift env)
  | ok uc =>
    rw [Run.result_bind_of_ok hc] at h
    intro e he
    rw [Run.trace_bind_of_ok hc] at he
    rcases List.mem_append.mp he with he1 | he2
    · exact cloneGitlabRepo_trace_clean env e he1
    · cases hck : (checkoutGitlabSourceBranch a env).result with
      | error ek =>
        rw [Run.result_bind_of_error hck] at h
        injection h with h2
        rw [h2] at hck
        exact absurd hck (checkoutGitlabSourceBranch_no_drift a env)
      | ok uk =>
        rw [Run.result_bind_of_ok hck] at h
        rw [Run.trace_bind_of_ok hck] at he2
        rcases List.mem_append.mp he2 with he3 | he4
        · exact checkoutGitlabSourceBranch_trace_clean a env e he3
        · unfold resetGitlabRepoBranch at h he4
          cases hv : (validateIsSubmoduleSyncBranch a env).result with
          | error ev =>
            rw [Run.result_bind_of_error (Run.result_bind_of_error hv)] at h
            rw [Run.trace_bind_of_error (Run.result_bind_of_error hv)] at he4
            rw [Run.trace_bind_of_error hv] at he4
            exact validateIsSubmoduleSyncBranch_trace_clean a env e he4
          | ok uv =>
            cases hr : (Run.step (Effect.gitResetHard ("origin/" ++ a.gitlabTargetBranch))
                env.resetOk UpsertError.resetHardFailed).result with
            | error er =>
              have hrv : (validateIsSubmoduleSyncBranch a env >>= fun _ =>
                  Run.step (Effect.gitResetHard ("origin/" ++ a.gitlabTargetBranch))
                    env.resetOk UpsertError.resetHardFailed).result
                  = Except.error er := by
                rw [Run.result_bind_of_ok hv]
                exact hr
              rw [Run.result_bind_of_error hrv] at h
              injection h with h2
              rw [h2] at hr
              exact absurd hr (Run.step_no_err (by decide))
            | ok ur =>
              have hrv : (validateIsSubmoduleSyncBranch a env >>= fun _ =>
                  Run.step (Effect.gitResetHard ("origin/" ++ a.gitlabTargetBranch))
                    env.resetOk UpsertError.resetHardFailed).result
                  = Except.ok ur := by
                rw [Run.result_bind_of_ok hv]
                exact hr
              rw [Run.result_bind_of_ok hrv] at h
              have hno : (checkoutSubmoduleBranch a env >>= fun _ =>
                  commitGitlabRepoChanges a env >>= fun _ =>
                    pushGitlabRepoChanges a env).result
                  ≠ Except.error UpsertError.driftDetected :=
                Run.bind_no_err (checkoutSubmoduleBranch_no_drift a env) fun _ =>
                  Run.bind_no_err (commitGitlabRepoChanges_no_drift a env) fun _ =>
                    pushGitlabRepoChanges_no_drift a env
              exact absurd h hno

/-- CLAIM C3: whenever `upsertBranch` aborts with the drift error, its
effect trace contains neither a hard reset nor a push — provenance
validation runs strictly before the destructive reset, so a drift abort
leaves the sync branch and the target branch untouched. -/
theorem drift_aborts_before_reset_and_push (a : UpsertArgs) (env : GitEnv)
    (h : (upsertBranch a env).result = Except.error UpsertError.driftDetected) :
    ∀ e ∈ (upsertBranch a env).trace, isDestructiveEffect e = false := by
  cases htd : env.tempDirEmpty with
  | false =>
    rw [upsertBranch, htd] at h
    simp at h
  | true =>
    have hbody : (upsertBranchBody a env).result = Except.error UpsertError.driftDetected := by
      rw [upsertBranch, htd] at h
      simpa using h
    intro e he
    rw [upsertBranch, htd] at he
    simp at he
    rcases he with rfl | he2 | rfl
    · rfl
    · exact upsertBranchBody_drift_clean a env hbody e he2
    · rfl

/-- A concrete set of `upsertBranch` inputs used by the witnesses. -/
def upsertArgsExample : UpsertArgs :=
  ⟨"main", "feature/x", some "abc123", "my-sdk", "my-sdk/feature/x", "submodule-auto-sync"⟩

/-- A concrete environment in which every external call succeeds and the
commit range between target tip and sync tip is empty. -/
def gitEnvAllOk : GitEnv :=
  { tempDirEmpty := true, showCurrentUserOk := true, showProjectOk := true,
    cloneOk := true, addConfigEmailOk := true, addConfigNameOk := true,
    fetchSourceOk := true, checkoutSourceOk := true, fetchTargetFallbackOk := true,
    checkoutFromTargetOk := true, fetchTargetValidateOk := true,
    logEntries := some [], resetOk := true,
    submoduleConfigPathRaw := some "vendor/my-sdk", listRemoteHeadsRaw := none,
    submoduleUpdateInitOk := true, submoduleFetchOk := true,
    submoduleCheckoutBranchOk := true, submoduleCheckoutShaOk := true,
    revparseHeadRaw := some "abc123", addOk := true, commitOk := true, pushOk := true }

/-- Like `gitEnvAllOk`, but the commit range contains one foreign (unsalted)
commit subject, so provenance validation detects drift. -/
def gitEnvDrift : GitEnv :=
  { gitEnvAllOk with logEntries := some [LogItem.str "evil commit"] }

/-- Witness for C3: a concrete run whose commit range contains the unsalted
subject `evil commit` aborts with the drift error, and its trace holds no
hard reset and no push. -/
theorem drift_aborts_before_reset_and_push_witness :
    (upsertBranch upsertArgsExample gitEnvDrift).result
      = Except.error UpsertError.driftDetected
    ∧ ∀ e ∈ (upsertBranch upsertArgsExample gitEnvDrift).trace,
        isDestructiveEffect e = false :=
  ⟨rfl, drift_aborts_before_reset_and_push upsertArgsExample gitEnvDrift rfl⟩

/-! ## Ephemeral workspace cleanup (claim C4) -/

/-- CLAIM C4 (amended): when the `TempDir` constructor succeeds (the
directory is empty on creation), the run's trace is exactly the directory
creation, then the body's external calls, then the directory removal — so
the workspace is deleted on every scope exit path, successful completion
and every thrown fault alike.  (On abnormal termination of the host process
the disposal does not run; see the counterexample.) -/
theorem tempdir_cleanup_on_scope_exit (a : UpsertArgs) (env : GitEnv)
    (h : env.tempDirEmpty = true) :
    ∃ body, (upsertBranch a env).trace
      = Effect.mkdirTempDir :: body ++ [Effect.rmTempDir] := by
  refine ⟨(upsertBranchBody a env).trace, ?_⟩
  rw [upsertBranch, h]
  simp

/-- Witness for C4 (amended): the cleanup effect closes the trace even for a
run that aborts with the drift error. -/
theorem tempdir_cleanup_on_scope_exit_witness :
    ∃ body, (upsertBranch upsertArgsExample gitEnvDrift).trace
      = Effect.mkdirTempDir :: body ++ [Effect.rmTempDir] :=
  tempdir_cleanup_on_scope_exit upsertArgsExample gitEnvDrift rfl

/-- Counterexample for C4 as stated: on abnormal exit of the host process —
here, termination after the first external effect — the directory has been
created but the removal never happens, because the disposal is only invoked
by the scope's own control flow and the code registers no process-level
exit handler. -/
theorem tempdir_cleanup_cex :
    Effect.mkdirTempDir ∈ upsertBranchEffectsKilled upsertArgsExample gitEnvAllOk 1
    ∧ Effect.rmTempDir ∉ upsertBranchEffectsKilled upsertArgsExample gitEnvAllOk 1 := by
  constructor
  · decide
  · decide

end GitlabSync
